import Mathlib

/-!
Verification of the document-indexing and retrieval subsystem of the
repository (server/services/vector_db_service.py and its spec).

The service code under `src` is embedded directly: `VectorDBService`
becomes a pure state machine over `ServiceState` (the in-memory cache
`vector_stores` plus the on-disk store directory, both modelled as
association lists).  The external library components the service calls
(the text splitter, the embedding provider and the FAISS vector index)
are not part of the repository source; they are modelled from the spec
(sections 4.1 - 4.3), each such definition carrying a doc comment that
says so.
-/

namespace VectorDB

/-! ### Chunker (spec section 4.1) -/

/-- The prioritized separator hierarchy of spec section 4.1, coarsest
first: paragraph break, line break, sentence-ending period-space, plain
space (the separator list of vector_db_service.py line 53).  The final
empty-string separator of that list means a raw character-level split
and is realised as the fallback of `layerCut`. -/
def separators : List (List Char) := [['\n', '\n'], ['\n'], ['.', ' '], [' ']]

/-- Modelled from the spec: for one separator, the cut position of the
next chunk.  A position `c` is a unit boundary when the text up to `c`
ends with the separator; accumulating whole units greedily until the
next would exceed `chunk_size` means cutting at the greatest boundary
`c ≤ cand` (`cand` is instantiated with `chunk_size`).  The cut must
also exceed `ov`: the chunk has to outgrow the `overlap` characters it
shares with its predecessor, or the splitter would not advance.  The
candidate positions are scanned downward from `cand`. -/
def sepCut (sep : List Char) (ov : Nat) : Nat → List Char → Option Nat
  | 0, _ => none
  | cand + 1, text =>
    if ov < cand + 1 ∧ sep.isSuffixOf (text.take (cand + 1)) then some (cand + 1)
    else sepCut sep ov cand text

/-- First defined value in a list of options (the first separator layer
that produces a chunk within `chunk_size`). -/
def firstSome {α : Type} : List (Option α) → Option α
  | [] => none
  | o :: rest =>
    match o with
    | some a => some a
    | none => firstSome rest

/-- Modelled from the spec: the layered cut of section 4.1.  Try the
separators from coarsest to finest; the first layer with a unit
boundary in `(overlap, chunk_size]` decides the cut; if no separator
produces a chunk within `chunk_size`, the last resort splits at the raw
character boundary `chunk_size` itself. -/
def layerCut (chunkSize overlap : Nat) (text : List Char) : Nat :=
  match firstSome (separators.map fun sep => sepCut sep overlap chunkSize text) with
  | some c => c
  | none => chunkSize

/-- Modelled from the spec: the Chunker of section 4.1 (the repository
delegates to an external recursive text splitter whose code is not under
`src`).  Each step closes a chunk at the layered separator cut
(`layerCut`), then starts the next chunk `overlap` characters before
the end of the chunk just closed.  The `fuel` argument makes the
recursion structural; it is instantiated with the text length so the
fuel never runs out (see `splitChunks`). -/
def splitChunksAux (chunkSize overlap : Nat) : Nat → List Char → List (List Char)
  | 0, text => if text = [] then [] else [text]
  | fuel + 1, text =>
    if text.length ≤ chunkSize then (if text = [] then [] else [text])
    else if chunkSize ≤ overlap then [text]
    else
      let c := layerCut chunkSize overlap text
      text.take c :: splitChunksAux chunkSize overlap fuel (text.drop (c - overlap))

/-- Modelled from the spec: `split(text, chunk_size, overlap)` of section
4.1.  Empty text yields an empty sequence; text no longer than
`chunk_size` yields exactly one chunk; `overlap < chunk_size` is a
caller contract. -/
def splitChunks (chunkSize overlap : Nat) (text : List Char) : List (List Char) :=
  splitChunksAux chunkSize overlap text.length text

/-- Concatenation of a chunk sequence with the leading `overlap`
characters of every chunk after the first removed; this is the
spec's notion of reconstructing the original text (section 8). -/
def reassemble (overlap : Nat) : List (List Char) → List Char
  | [] => []
  | c :: rest => c ++ (rest.map fun x => x.drop overlap).flatten

/-! ### Vector index (spec section 4.3, FAISS stand-in) -/

/-- Modelled from the spec: the fixed numeric distance function of
section 4.3; squared L2 distance, the metric the original system gets
from its vector-index library defaults. -/
def sqDist (u v : List ℚ) : ℚ :=
  ((u.zip v).map fun p => (p.1 - p.2) * (p.1 - p.2)).sum

/-- Result ordering of section 4.3: ascending distance, ties broken by
lower ordinal. -/
def rankLE (a b : Nat × ℚ) : Prop :=
  a.2 < b.2 ∨ (a.2 = b.2 ∧ a.1 ≤ b.1)

instance (a b : Nat × ℚ) : Decidable (rankLE a b) := by
  unfold rankLE; infer_instance

/-- Insert one scored ordinal into a list already ordered by `rankLE`. -/
def insertRanked (a : Nat × ℚ) : List (Nat × ℚ) → List (Nat × ℚ)
  | [] => [a]
  | b :: rest =>
    if rankLE a b then a :: b :: rest else b :: insertRanked a rest

/-- Order scored ordinals by ascending distance, ties by lower ordinal. -/
def sortRanked : List (Nat × ℚ) → List (Nat × ℚ)
  | [] => []
  | a :: rest => insertRanked a (sortRanked rest)

/-- Score every stored vector against the query, pairing each with its
ordinal (`i` is the ordinal of the head of `vs`). -/
def rankFrom (q : List ℚ) (i : Nat) : List (List ℚ) → List (Nat × ℚ)
  | [] => []
  | v :: rest => (i, sqDist q v) :: rankFrom q (i + 1) rest

/-- Modelled from the spec: the VectorIndex of section 4.3, a set of
vectors of one fixed dimension; the ordinal of a vector is its position. -/
structure VectorIndex where
  dim : Nat
  vectors : List (List ℚ)
deriving DecidableEq

/-- Modelled from the spec: `build` of section 4.3; building from zero
vectors is legal. -/
def VectorIndex.build (d : Nat) (vs : List (List ℚ)) : VectorIndex :=
  { dim := d, vectors := vs }

/-- Number of vectors held by the index (`index.ntotal` in the source). -/
def VectorIndex.size (idx : VectorIndex) : Nat :=
  idx.vectors.length

/-- Modelled from the spec: `search(query, top_k)` of section 4.3;
`top_k <= 0` is an error, a dimension mismatch is an error, otherwise
the scored ordinals ordered by ascending distance (ties by lower
ordinal), clamped to the index size. -/
def VectorIndex.search (idx : VectorIndex) (q : List ℚ) (topK : Int) :
    Except String (List (Nat × ℚ)) :=
  if topK ≤ 0 then Except.error "InvalidInput"
  else if q.length = idx.dim then
    Except.ok ((sortRanked (rankFrom q 0 idx.vectors)).take topK.toNat)
  else Except.error "DimensionMismatch"

/-! ### Association lists: the in-memory cache dictionary and the on-disk
store directory of `VectorDBService`. -/

/-- Dictionary lookup (`self.vector_stores[k]` / `os.path.exists`). -/
def lookupA {β : Type} (k : String) : List (String × β) → Option β
  | [] => none
  | p :: rest => if p.1 = k then some p.2 else lookupA k rest

/-- Remove every binding of key `k` (`del` / `shutil.rmtree`). -/
def eraseA {β : Type} (k : String) : List (String × β) → List (String × β)
  | [] => []
  | p :: rest => if p.1 = k then eraseA k rest else p :: eraseA k rest

/-- Overwriting insert (`self.vector_stores[k] = v` / `save_local`). -/
def insertA {β : Type} (k : String) (v : β) (l : List (String × β)) :
    List (String × β) :=
  (k, v) :: eraseA k l

/-! ### Path sanitisation: `Path(file_name).stem` in the source. -/

/-- The final path component of `file_name`: the characters after the
last slash (`Path(file_name).name`). -/
def pathNameChars (cs : List Char) : List Char :=
  (cs.reverse.takeWhile fun c => c ≠ '/').reverse

/-- Drop the final dot-suffix of a name exactly as Python's
`PurePath.stem` does: the suffix starts at the last dot, and is only
recognised when that dot is neither the first nor the last character. -/
def stemChars (name : List Char) : List Char :=
  match name.reverse.findIdx? fun c => c = '.' with
  | none => name
  | some j =>
    let i := name.length - 1 - j
    if 0 < i ∧ i < name.length - 1 then name.take i else name

/-- `Path(file_name).stem`: the base name of the final path component
without its extension (vector_db_service.py lines 131, 156, 242). -/
def pathStem (fileName : String) : String :=
  String.mk (stemChars (pathNameChars fileName.data))

/-! ### Data model of the service -/

/-- A metadata value: the service stores strings (file name, URIs) and
numbers (chunk ordinal, chunk count) in its metadata dictionaries. -/
inductive MetaVal
  | str (s : String)
  | num (n : Nat)
deriving DecidableEq

/-- Python dictionary assignment `d[k] = v`: replace the binding in
place when the key exists, append it otherwise (insertion order is
preserved, as in Python dicts). -/
def dictSet (k : String) (v : MetaVal) : List (String × MetaVal) → List (String × MetaVal)
  | [] => [(k, v)]
  | p :: rest => if p.1 = k then (k, v) :: rest else p :: dictSet k v rest

/-- Python `d.update(m)`: assign every pair of `m` into `d` in order,
so keys of `m` override equal keys of `d`. -/
def dictUpdate (d m : List (String × MetaVal)) : List (String × MetaVal) :=
  m.foldl (fun acc p => dictSet p.1 p.2 acc) d

/-- A LangChain `Document`: chunk text plus its metadata dictionary
(built in create_vector_store_from_text lines 90-96: the generated
source/chunk_index/total_chunks entries, then
`doc_metadata.update(metadata)` merging the caller metadata in, caller
keys overriding generated ones). -/
structure Document where
  page_content : List Char
  metadata : List (String × MetaVal)
deriving DecidableEq

/-- A FAISS vector store as the service uses it: the documents in
insertion order and the index built over their embeddings. -/
structure FAISSStore where
  docs : List Document
  index : VectorIndex
deriving DecidableEq

/-- An on-disk store directory: either a well-formed serialized store,
or a corrupted one whose deserialization raises (the exception the
`except` clause of `load_vector_store` swallows). -/
inductive DiskEntry
  | good (store : FAISSStore)
  | corrupt
deriving DecidableEq

/-- The mutable state of `VectorDBService`: the in-memory cache
`self.vector_stores` (keyed by the raw `file_name`) and the on-disk
directory `self.vector_store_dir` (keyed by the sanitized stem). -/
structure ServiceState where
  vector_stores : List (String × FAISSStore)
  disk : List (String × DiskEntry)
deriving DecidableEq

/-- A formatted search result as returned by `VectorDBService.search`
(lines 214-220): text, metadata and the raw distance score. -/
structure SearchResult where
  text : List Char
  metadata : List (String × MetaVal)
  score : ℚ
deriving DecidableEq

/-- `get_store_info` result (lines 297-301). -/
structure StoreInfo where
  file_name : String
  total_chunks : Nat
  embedding_dimension : Nat
deriving DecidableEq

/-- The chunk size hard-wired in `VectorDBService.__init__` (line 50). -/
def chunk_size : Nat := 1000

/-- The chunk overlap hard-wired in `VectorDBService.__init__` (line 51). -/
def chunk_overlap : Nat := 200

/-! ### Service operations (vector_db_service.py).  Each operation takes
the embedding provider as an explicit function `embed` of fixed
dimension `d` (spec section 4.2 abstracts it as a capability). -/

/-- `save_vector_store` (lines 119-138): write the store under the
sanitized stem of `file_name`. -/
def save_vector_store (fileName : String) (store : FAISSStore)
    (s : ServiceState) : ServiceState :=
  { s with disk := insertA (pathStem fileName) (DiskEntry.good store) s.disk }

/-- `create_vector_store_from_text` (lines 63-117): chunk the text,
attach per-chunk metadata (the generated source / chunk_index /
total_chunks entries with the caller metadata merged over them by
`doc_metadata.update(metadata)`, caller keys overriding), build the
index over the chunk embeddings, cache the store under the raw
`file_name` and persist it under the sanitized stem. -/
def create_vector_store_from_text (embed : String → List ℚ) (d : Nat)
    (s : ServiceState) (text : List Char) (fileName : String)
    (metadata : List (String × MetaVal)) : FAISSStore × ServiceState :=
  let chunks := splitChunks chunk_size chunk_overlap text
  let documents := chunks.enum.map fun p =>
    { page_content := p.2
      metadata :=
        dictUpdate
          [("source", MetaVal.str fileName), ("chunk_index", MetaVal.num p.1),
           ("total_chunks", MetaVal.num chunks.length)] metadata : Document }
  let store : FAISSStore :=
    { docs := documents
      index := VectorIndex.build d (documents.map fun doc => embed (String.mk doc.page_content)) }
  let s1 : ServiceState :=
    { s with vector_stores := insertA fileName store s.vector_stores }
  (store, save_vector_store fileName store s1)

/-- `load_vector_store` (lines 140-179): cache hit returns the cached
store; otherwise a missing directory returns `none`, a good directory
deserializes and populates the cache, and a corrupted directory raises
inside the `try` and the handler returns `none`. -/
def load_vector_store (s : ServiceState) (fileName : String) :
    Option FAISSStore × ServiceState :=
  match lookupA fileName s.vector_stores with
  | some store => (some store, s)
  | none =>
    match lookupA (pathStem fileName) s.disk with
    | none => (none, s)
    | some (DiskEntry.good store) =>
        (some store,
         { s with vector_stores := insertA fileName store s.vector_stores })
    | some DiskEntry.corrupt => (none, s)

/-- `similarity_search_with_score` as the service uses it (line 208):
search the index with the embedded query and map each returned ordinal
back to its document. -/
def similarity_search_with_score (embed : String → List ℚ)
    (store : FAISSStore) (query : String) (topK : Int) :
    Except String (List (Document × ℚ)) :=
  match store.index.search (embed query) topK with
  | Except.error e => Except.error e
  | Except.ok ranked =>
      Except.ok (ranked.filterMap fun p => (store.docs.get? p.1).map fun doc => (doc, p.2))

/-- `VectorDBService.search` (lines 181-224): load the store; when the
load yields nothing, return the empty result list; otherwise run the
similarity search and format each hit as text, metadata and score. -/
def search (embed : String → List ℚ) (s : ServiceState) (query : String)
    (fileName : String) (topK : Int) :
    Except String (List SearchResult) × ServiceState :=
  match load_vector_store s fileName with
  | (none, s1) => (Except.ok [], s1)
  | (some store, s1) =>
    match similarity_search_with_score embed store query topK with
    | Except.error e => (Except.error e, s1)
    | Except.ok pairs =>
        (Except.ok (pairs.map fun p =>
          { text := p.1.page_content, metadata := p.1.metadata, score := p.2 }), s1)

/-- `delete_vector_store` (lines 226-255): always drop the cache entry
for the raw `file_name`; then remove the on-disk directory for the
sanitized stem when it exists, returning whether it did. -/
def delete_vector_store (s : ServiceState) (fileName : String) :
    Bool × ServiceState :=
  let cache2 := eraseA fileName s.vector_stores
  match lookupA (pathStem fileName) s.disk with
  | some _ =>
      (true, { vector_stores := cache2, disk := eraseA (pathStem fileName) s.disk })
  | none => (false, { vector_stores := cache2, disk := s.disk })

/-- `get_store_info` (lines 279-301): load the store and report its
vector count and dimension. -/
def get_store_info (s : ServiceState) (fileName : String) :
    Option StoreInfo × ServiceState :=
  match load_vector_store s fileName with
  | (none, s1) => (none, s1)
  | (some store, s1) =>
      (some { file_name := fileName
              total_chunks := store.index.size
              embedding_dimension := store.index.dim }, s1)

/-! ### Concrete instances used by counterexamples and witnesses -/

/-- A concrete one-dimensional embedding provider (maps a string to the
one-element vector holding its length), used to instantiate universally
quantified theorems at concrete inputs. -/
def embedLen : String → List ℚ := fun str => [(str.length : ℚ)]

/-- A small concrete text. -/
def sampleChars : List Char := ['h', 'e', 'l', 'l', 'o', ' ', 'w', 'o', 'r', 'l', 'd']

/-- A 1201-character text whose single paragraph break ends exactly at
position 1000, so the service splitter (chunk_size 1000, overlap 200)
produces two chunks. -/
def shadowText : List Char :=
  List.replicate 998 'a' ++ ['\n', '\n'] ++ List.replicate 201 'a'

end VectorDB

namespace VectorDB

/-! ### Chunker lemmas -/

theorem sepCut_bounds (sep : List Char) (ov : Nat) :
    ∀ (cand : Nat) (text : List Char) (c : Nat),
      sepCut sep ov cand text = some c → ov < c ∧ c ≤ cand := by
  intro cand
  induction cand with
  | zero => intro text c h; simp [sepCut] at h
  | succ m ih =>
    intro text c h
    simp only [sepCut] at h
    split at h
    · rename_i hcond
      have hc : m + 1 = c := Option.some.inj h
      subst hc
      exact ⟨hcond.1, le_refl _⟩
    · have := ih text c h
      exact ⟨this.1, Nat.le_succ_of_le this.2⟩

theorem firstSome_mem {α : Type} :
    ∀ {l : List (Option α)} {a : α}, firstSome l = some a → some a ∈ l := by
  intro l
  induction l with
  | nil => intro a h; simp [firstSome] at h
  | cons o rest ih =>
    intro a h
    cases o with
    | some b =>
      simp only [firstSome] at h
      rw [h]
      exact List.mem_cons_self _ _
    | none =>
      simp only [firstSome] at h
      exact List.mem_cons_of_mem _ (ih h)

theorem layerCut_bounds (cs ov : Nat) (hov : ov < cs) (text : List Char) :
    ov < layerCut cs ov text ∧ layerCut cs ov text ≤ cs := by
  unfold layerCut
  cases hf : firstSome (separators.map fun sep => sepCut sep ov cs text) with
  | none => exact ⟨hov, le_refl cs⟩
  | some c =>
    have hmem := firstSome_mem hf
    rw [List.mem_map] at hmem
    obtain ⟨sep, hsep, hcut⟩ := hmem
    exact sepCut_bounds sep ov cs text c hcut

theorem splitChunksAux_flatten_drop (cs ov : Nat) (hov : ov < cs) :
    ∀ fuel text, text.length ≤ fuel →
      ((splitChunksAux cs ov fuel text).map fun c => c.drop ov).flatten = text.drop ov := by
  intro fuel
  induction fuel with
  | zero =>
    intro text ht
    have hnil : text = [] := List.eq_nil_of_length_eq_zero (Nat.le_zero.mp ht)
    subst hnil
    simp [splitChunksAux]
  | succ fuel ih =>
    intro text ht
    by_cases hlen : text.length ≤ cs
    · by_cases hnil : text = []
      · subst hnil; simp [splitChunksAux]
      · simp [splitChunksAux, hlen, hnil]
    · have hco : ¬ cs ≤ ov := by omega
      obtain ⟨hc1, hc2⟩ := layerCut_bounds cs ov hov text
      have hrec : (text.drop (layerCut cs ov text - ov)).length ≤ fuel := by
        simp only [List.length_drop]; omega
      simp only [splitChunksAux, if_neg hlen, if_neg hco, List.map_cons, List.flatten_cons]
      rw [ih _ hrec, List.drop_drop]
      have h1 : layerCut cs ov text - ov + ov = layerCut cs ov text := by omega
      rw [h1, List.drop_take]
      have h3 : text.drop (layerCut cs ov text)
          = (text.drop ov).drop (layerCut cs ov text - ov) := by
        rw [List.drop_drop]
        congr 1
        omega
      rw [h3, List.take_append_drop]

theorem reassemble_splitChunks (cs ov : Nat) (hov : ov < cs) (text : List Char) :
    reassemble ov (splitChunks cs ov text) = text := by
  unfold splitChunks
  cases htl : text.length with
  | zero =>
    have hnil : text = [] := List.eq_nil_of_length_eq_zero htl
    subst hnil
    simp [splitChunksAux, reassemble]
  | succ n =>
    by_cases hlen : text.length ≤ cs
    · by_cases hnil : text = []
      · subst hnil; simp at htl
      · simp [splitChunksAux, hlen, hnil, reassemble]
    · have hco : ¬ cs ≤ ov := by omega
      have hov : ov < cs := by omega
      obtain ⟨hc1, hc2⟩ := layerCut_bounds cs ov hov text
      simp only [splitChunksAux, if_neg hlen, if_neg hco, reassemble]
      have hrec : (text.drop (layerCut cs ov text - ov)).length ≤ n := by
        simp only [List.length_drop]; omega
      rw [splitChunksAux_flatten_drop cs ov hov n _ hrec, List.drop_drop]
      have h1 : layerCut cs ov text - ov + ov = layerCut cs ov text := by omega
      rw [h1, List.take_append_drop]

theorem splitChunksAux_length_le (cs ov : Nat) (hov : ov < cs) :
    ∀ fuel text, text.length ≤ fuel → ∀ c ∈ splitChunksAux cs ov fuel text, c.length ≤ cs := by
  intro fuel
  induction fuel with
  | zero =>
    intro text ht c hc
    have hnil : text = [] := List.eq_nil_of_length_eq_zero (Nat.le_zero.mp ht)
    subst hnil
    simp [splitChunksAux] at hc
  | succ fuel ih =>
    intro text ht c hc
    by_cases hlen : text.length ≤ cs
    · by_cases hnil : text = []
      · subst hnil; simp [splitChunksAux] at hc
      · simp [splitChunksAux, hlen, hnil] at hc
        subst hc
        exact hlen
    · have hco : ¬ cs ≤ ov := by omega
      obtain ⟨hc1, hc2⟩ := layerCut_bounds cs ov hov text
      simp only [splitChunksAux, if_neg hlen, if_neg hco, List.mem_cons] at hc
      rcases hc with hc | hc
      · subst hc
        rw [List.length_take]
        exact le_trans (Nat.min_le_left _ _) hc2
      · exact ih _ (by simp only [List.length_drop]; omega) c hc

theorem splitChunks_length_le (cs ov : Nat) (hov : ov < cs) (text : List Char) :
    ∀ c ∈ splitChunks cs ov text, c.length ≤ cs :=
  splitChunksAux_length_le cs ov hov text.length text le_rfl

/-! ### Ranking lemmas (ordering of VectorIndex.search results) -/

theorem rankLE_trans {a b c : Nat × ℚ} (h1 : rankLE a b) (h2 : rankLE b c) : rankLE a c := by
  simp only [rankLE] at h1 h2 ⊢
  rcases h1 with h1 | ⟨h1e, h1le⟩ <;> rcases h2 with h2 | ⟨h2e, h2le⟩
  · exact Or.inl (lt_trans h1 h2)
  · exact Or.inl (h2e ▸ h1)
  · exact Or.inl (h1e ▸ h2)
  · exact Or.inr ⟨h1e.trans h2e, le_trans h1le h2le⟩

theorem rankLE_of_not_rankLE {a b : Nat × ℚ} (h : ¬ rankLE a b) : rankLE b a := by
  simp only [rankLE] at h ⊢
  push_neg at h
  rcases lt_or_eq_of_le h.1 with hlt | heq
  · exact Or.inl hlt
  · exact Or.inr ⟨heq, le_of_lt (h.2 heq.symm)⟩

theorem mem_insertRanked {x a : Nat × ℚ} : ∀ {l}, x ∈ insertRanked a l ↔ x = a ∨ x ∈ l := by
  intro l
  induction l with
  | nil => simp [insertRanked]
  | cons b rest ih =>
    simp only [insertRanked]
    split
    · simp [List.mem_cons]
    · simp only [List.mem_cons, ih]
      tauto

theorem length_insertRanked (a : Nat × ℚ) : ∀ l, (insertRanked a l).length = l.length + 1 := by
  intro l
  induction l with
  | nil => rfl
  | cons b rest ih =>
    simp only [insertRanked]
    split
    · simp
    · simp [ih]

theorem pairwise_insertRanked (a : Nat × ℚ) :
    ∀ l, l.Pairwise rankLE → (insertRanked a l).Pairwise rankLE := by
  intro l
  induction l with
  | nil => intro _; simp [insertRanked]
  | cons b rest ih =>
    intro hp
    rw [List.pairwise_cons] at hp
    simp only [insertRanked]
    split
    · rename_i hab
      rw [List.pairwise_cons]
      refine ⟨?_, List.pairwise_cons.mpr hp⟩
      intro y hy
      rcases List.mem_cons.mp hy with rfl | hy2
      · exact hab
      · exact rankLE_trans hab (hp.1 y hy2)
    · rename_i hab
      rw [List.pairwise_cons]
      refine ⟨?_, ih hp.2⟩
      intro y hy
      rcases mem_insertRanked.mp hy with rfl | hy2
      · exact rankLE_of_not_rankLE hab
      · exact hp.1 y hy2

theorem pairwise_sortRanked : ∀ l, (sortRanked l).Pairwise rankLE := by
  intro l
  induction l with
  | nil => simp [sortRanked]
  | cons a rest ih => exact pairwise_insertRanked a _ ih

theorem length_sortRanked : ∀ l, (sortRanked l).length = l.length := by
  intro l
  induction l with
  | nil => rfl
  | cons a rest ih => simp [sortRanked, length_insertRanked, ih]

theorem mem_sortRanked {x : Nat × ℚ} : ∀ {l}, x ∈ sortRanked l ↔ x ∈ l := by
  intro l
  induction l with
  | nil => simp [sortRanked]
  | cons a rest ih => simp [sortRanked, mem_insertRanked, ih]

theorem length_rankFrom (q : List ℚ) :
    ∀ (vs : List (List ℚ)) (i : Nat), (rankFrom q i vs).length = vs.length := by
  intro vs
  induction vs with
  | nil => intro i; rfl
  | cons v rest ih => intro i; simp [rankFrom, ih]

theorem mem_rankFrom (q : List ℚ) :
    ∀ (vs : List (List ℚ)) (i : Nat) (p : Nat × ℚ), p ∈ rankFrom q i vs →
      ∃ j, ∃ h : j < vs.length, p.1 = i + j ∧ p.2 = sqDist q (vs.get ⟨j, h⟩) := by
  intro vs
  induction vs with
  | nil => intro i p hp; simp [rankFrom] at hp
  | cons v rest ih =>
    intro i p hp
    simp only [rankFrom, List.mem_cons] at hp
    rcases hp with rfl | hp
    · exact ⟨0, Nat.succ_pos _, by omega, rfl⟩
    · obtain ⟨j, hj, h1, h2⟩ := ih (i + 1) p hp
      exact ⟨j + 1, Nat.succ_lt_succ hj, by omega, h2⟩

theorem mem_rankFrom_zero (q : List ℚ) (vs : List (List ℚ)) (p : Nat × ℚ)
    (hp : p ∈ rankFrom q 0 vs) :
    ∃ h : p.1 < vs.length, p.2 = sqDist q (vs.get ⟨p.1, h⟩) := by
  obtain ⟨j, hj, h1, h2⟩ := mem_rankFrom q vs 0 p hp
  have hj2 : p.1 < vs.length := by omega
  refine ⟨hj2, ?_⟩
  have hfin : (⟨p.1, hj2⟩ : Fin vs.length) = ⟨j, hj⟩ := by
    rw [Fin.mk_eq_mk]
    omega
  rw [hfin]
  exact h2

/-! ### Association list lemmas -/

theorem lookupA_insertA_self {β : Type} (k : String) (v : β) (l : List (String × β)) :
    lookupA k (insertA k v l) = some v := by
  simp [insertA, lookupA]

theorem lookupA_eraseA_self {β : Type} (k : String) : ∀ l : List (String × β),
    lookupA k (eraseA k l) = none := by
  intro l
  induction l with
  | nil => rfl
  | cons p rest ih =>
    simp only [eraseA]
    split
    · exact ih
    · rename_i h
      simp [lookupA, h, ih]

/-! ### Metadata dictionary lemmas -/

theorem lookupA_dictSet_ne (k k2 : String) (v : MetaVal) (hne : ¬ k2 = k) :
    ∀ d, lookupA k (dictSet k2 v d) = lookupA k d := by
  intro d
  induction d with
  | nil => simp [dictSet, lookupA, hne]
  | cons p rest ih =>
    simp only [dictSet]
    split
    · rename_i h
      simp [lookupA, hne, h]
    · simp [lookupA, ih]

theorem lookupA_dictUpdate_none (k : String) :
    ∀ (m d : List (String × MetaVal)), lookupA k m = none →
      lookupA k (dictUpdate d m) = lookupA k d := by
  intro m
  induction m with
  | nil => intro d _; rfl
  | cons p rest ih =>
    intro d hm
    simp only [lookupA] at hm
    by_cases h : p.1 = k
    · rw [if_pos h] at hm
      exact absurd hm (by simp)
    · rw [if_neg h] at hm
      show lookupA k (dictUpdate (dictSet p.1 p.2 d) rest) = lookupA k d
      rw [ih _ hm]
      exact lookupA_dictSet_ne k p.1 p.2 h d

theorem map_eq_of_eq {α β : Type} (f g : α → β) (h : ∀ a, f a = g a) :
    ∀ l : List α, l.map f = l.map g := by
  intro l
  induction l with
  | nil => rfl
  | cons a rest ih => simp only [List.map_cons, h a, ih]

end VectorDB

namespace VectorDB

/-! ### Claim theorems -/

/-- C1 (counterexample): the claim that `search` returns a
distinguishable NotFound / LoadFailure error when the index cannot be
obtained is false on the code: for an unknown document, and equally for
a corrupted on-disk store, `VectorDBService.search` returns the plain
empty result list (`Except.ok []`), the very value a genuinely empty
match set would produce, and `load_vector_store` yields `none` in both
situations. -/
theorem search_missing_store_empty_not_error :
    (search embedLen { vector_stores := [], disk := [] } "q" "doc1" 5).1 = Except.ok [] ∧
    (search embedLen { vector_stores := [], disk := [("doc1", DiskEntry.corrupt)] }
        "q" "doc1" 5).1 = Except.ok [] ∧
    (load_vector_store { vector_stores := [], disk := [] } "doc1").1 = none ∧
    (load_vector_store { vector_stores := [], disk := [("doc1", DiskEntry.corrupt)] }
        "doc1").1 = none :=
  ⟨rfl, rfl, rfl, rfl⟩

/-- C1 (amended): whenever the store for `fileName` cannot be loaded
(unknown document or load failure alike), `VectorDBService.search`
returns the empty result list `Except.ok []`, indistinguishable from a
query that genuinely matched nothing; no error is surfaced. -/
theorem search_unloadable_returns_ok_empty (embed : String → List ℚ)
    (s : ServiceState) (q fileName : String) (k : Int)
    (h : (load_vector_store s fileName).1 = none) :
    (search embed s q fileName k).1 = Except.ok [] := by
  rcases hl : load_vector_store s fileName with ⟨r, s1⟩
  rw [hl] at h
  cases r with
  | none => simp [search, hl]
  | some store => simp at h

/-- Witness for the C1 amended theorem at a concrete input. -/
theorem search_unloadable_returns_ok_empty_witness :
    (load_vector_store { vector_stores := [], disk := [] } "missing.pdf").1 = none ∧
    (search embedLen { vector_stores := [], disk := [] } "hello" "missing.pdf" 5).1
      = Except.ok [] :=
  ⟨rfl, search_unloadable_returns_ok_empty embedLen
    { vector_stores := [], disk := [] } "hello" "missing.pdf" 5 rfl⟩

/-- C2 (counterexample): the claim that `load_vector_store` reports a
corrupted on-disk record as a LoadFailure distinct from not-found is
false on the code: the deserialization exception is swallowed and the
function returns `none`, exactly the value returned when no record
exists at all (the return type `Option FAISSStore` has no failure
variant). -/
theorem load_corrupt_indistinguishable_from_absent :
    load_vector_store { vector_stores := [], disk := [("doc1", DiskEntry.corrupt)] } "doc1"
      = (none, { vector_stores := [], disk := [("doc1", DiskEntry.corrupt)] }) ∧
    load_vector_store { vector_stores := [], disk := [] } "doc1"
      = (none, { vector_stores := [], disk := [] }) :=
  ⟨rfl, rfl⟩

/-- C2 (amended): when the on-disk record for `fileName` exists but is
corrupted, `load_vector_store` returns `none` with the state unchanged,
the same outcome as an absent record; the failure is only logged. -/
theorem load_corrupt_returns_none (s : ServiceState) (fileName : String)
    (hc : lookupA fileName s.vector_stores = none)
    (hd : lookupA (pathStem fileName) s.disk = some DiskEntry.corrupt) :
    load_vector_store s fileName = (none, s) := by
  simp [load_vector_store, hc, hd]

/-- Witness for the C2 amended theorem at a concrete input. -/
theorem load_corrupt_returns_none_witness :
    lookupA "doc1"
        ({ vector_stores := [], disk := [("doc1", DiskEntry.corrupt)] } : ServiceState).vector_stores
      = none ∧
    lookupA (pathStem "doc1")
        ({ vector_stores := [], disk := [("doc1", DiskEntry.corrupt)] } : ServiceState).disk
      = some DiskEntry.corrupt ∧
    load_vector_store { vector_stores := [], disk := [("doc1", DiskEntry.corrupt)] } "doc1"
      = (none, { vector_stores := [], disk := [("doc1", DiskEntry.corrupt)] }) :=
  ⟨rfl, rfl, load_corrupt_returns_none _ "doc1" rfl rfl⟩

/-- C3: build-then-load round-trip over persistence.  After
`create_vector_store_from_text` and clearing the in-memory cache,
`load_vector_store` yields a record whose chunk texts, metadata and
search results for any query are identical to those of the record
originally built. -/
theorem build_then_load_roundtrip (embed : String → List ℚ) (d : Nat)
    (s : ServiceState) (text : List Char) (fileName : String)
    (metadata : List (String × MetaVal)) :
    ∃ loaded : FAISSStore,
      (load_vector_store
        { (create_vector_store_from_text embed d s text fileName metadata).2 with
            vector_stores := [] } fileName).1 = some loaded ∧
      loaded.docs.map Document.page_content
        = (create_vector_store_from_text embed d s text fileName metadata).1.docs.map
            Document.page_content ∧
      loaded.docs.map Document.metadata
        = (create_vector_store_from_text embed d s text fileName metadata).1.docs.map
            Document.metadata ∧
      ∀ (q : String) (k : Int),
        similarity_search_with_score embed loaded q k
          = similarity_search_with_score embed
              (create_vector_store_from_text embed d s text fileName metadata).1 q k := by
  refine ⟨(create_vector_store_from_text embed d s text fileName metadata).1,
    ?_, rfl, rfl, fun q k => rfl⟩
  simp [create_vector_store_from_text, save_vector_store, load_vector_store, lookupA, insertA]

/-- C4: ingesting empty text succeeds with zero chunks and a zero-size
index, and a query against that record returns the empty result list,
not an error. -/
theorem ingest_empty_text_zero_chunks (embed : String → List ℚ) (d : Nat)
    (hembed : ∀ str : String, (embed str).length = d)
    (s : ServiceState) (fileName : String) (metadata : List (String × MetaVal)) :
    (create_vector_store_from_text embed d s [] fileName metadata).1.docs = [] ∧
    (create_vector_store_from_text embed d s [] fileName metadata).1.index.size = 0 ∧
    ∀ q : String,
      (search embed (create_vector_store_from_text embed d s [] fileName metadata).2
          q fileName 5).1 = Except.ok [] := by
  refine ⟨rfl, rfl, fun q => ?_⟩
  have h5 : ¬ (5 : Int) ≤ 0 := by norm_num
  simp [create_vector_store_from_text, save_vector_store, search, load_vector_store,
    insertA, lookupA, similarity_search_with_score, VectorIndex.search, VectorIndex.build,
    splitChunks, splitChunksAux, rankFrom, sortRanked, h5, hembed]

/-- Witness for the C4 theorem at a concrete input. -/
theorem ingest_empty_text_zero_chunks_witness :
    (∀ str : String, (embedLen str).length = 1) ∧
    ((create_vector_store_from_text embedLen 1 { vector_stores := [], disk := [] }
        [] "doc1" []).1.docs = [] ∧
     (create_vector_store_from_text embedLen 1 { vector_stores := [], disk := [] }
        [] "doc1" []).1.index.size = 0 ∧
     ∀ q : String,
       (search embedLen (create_vector_store_from_text embedLen 1
           { vector_stores := [], disk := [] } [] "doc1" []).2 q "doc1" 5).1
         = Except.ok []) :=
  ⟨fun _ => rfl, ingest_empty_text_zero_chunks embedLen 1 (fun _ => rfl)
    { vector_stores := [], disk := [] } "doc1" []⟩

/-- C5: on an index built from vectors `vs` and a query of matching
dimension, `VectorIndex.search` rejects `top_k <= 0` as an error, and
for positive `top_k` returns scored ordinals ordered ascending by
distance with ties broken by lower ordinal (`rankLE`), of length
`top_k` clamped to the index size, each ordinal within range and each
distance the true distance to its vector. -/
theorem vectorIndex_search_ordered_clamped (d : Nat) (vs : List (List ℚ)) (q : List ℚ)
    (hq : q.length = d) :
    (∀ k : Int, k ≤ 0 → (VectorIndex.build d vs).search q k = Except.error "InvalidInput") ∧
    (∀ k : Int, 0 < k → ∃ res : List (Nat × ℚ),
      (VectorIndex.build d vs).search q k = Except.ok res ∧
      res.Pairwise rankLE ∧
      res.length = min k.toNat vs.length ∧
      ∀ p ∈ res, ∃ h : p.1 < vs.length, p.2 = sqDist q (vs.get ⟨p.1, h⟩)) := by
  constructor
  · intro k hk
    simp [VectorIndex.search, hk]
  · intro k hk
    have hk2 : ¬ k ≤ 0 := by omega
    refine ⟨(sortRanked (rankFrom q 0 vs)).take k.toNat, ?_, ?_, ?_, ?_⟩
    · simp [VectorIndex.search, hk2, VectorIndex.build, hq]
    · exact List.Pairwise.sublist (List.take_sublist _ _) (pairwise_sortRanked _)
    · rw [List.length_take, length_sortRanked, length_rankFrom]
    · intro p hp
      have hp2 : p ∈ sortRanked (rankFrom q 0 vs) := (List.take_sublist _ _).subset hp
      exact mem_rankFrom_zero q vs p (mem_sortRanked.mp hp2)

/-- Witness for the C5 theorem at a concrete input. -/
theorem vectorIndex_search_ordered_clamped_witness :
    ([(0 : ℚ)] : List ℚ).length = 1 ∧
    ((∀ k : Int, k ≤ 0 →
        (VectorIndex.build 1 [[2], [1]]).search [(0 : ℚ)] k = Except.error "InvalidInput") ∧
     (∀ k : Int, 0 < k → ∃ res : List (Nat × ℚ),
        (VectorIndex.build 1 [[2], [1]]).search [(0 : ℚ)] k = Except.ok res ∧
        res.Pairwise rankLE ∧
        res.length = min k.toNat ([[2], [1]] : List (List ℚ)).length ∧
        ∀ p ∈ res, ∃ h : p.1 < ([[2], [1]] : List (List ℚ)).length,
          p.2 = sqDist [(0 : ℚ)] (([[2], [1]] : List (List ℚ)).get ⟨p.1, h⟩))) :=
  ⟨rfl, vectorIndex_search_ordered_clamped 1 [[2], [1]] [(0 : ℚ)] rfl⟩

/-- C6 (counterexample): the claim that the store is cached and
persisted under the sanitized stem, so that two ingestions with the
same sanitized name overwrite one record in both cache and disk, is
false on the code: the in-memory cache is keyed by the raw `file_name`.
Ingesting "doc.pdf" and then "doc.txt" (both with stem "doc") leaves
two distinct cache entries while the disk holds a single record. -/
theorem same_stem_distinct_cache_entries :
    pathStem "doc.pdf" = pathStem "doc.txt" ∧
    (create_vector_store_from_text embedLen 1
        (create_vector_store_from_text embedLen 1 { vector_stores := [], disk := [] }
          ['a', 'b'] "doc.pdf" []).2
        ['c'] "doc.txt" []).2.vector_stores.map Prod.fst = ["doc.txt", "doc.pdf"] ∧
    (create_vector_store_from_text embedLen 1
        (create_vector_store_from_text embedLen 1 { vector_stores := [], disk := [] }
          ['a', 'b'] "doc.pdf" []).2
        ['c'] "doc.txt" []).2.disk.map Prod.fst = ["doc"] :=
  ⟨by decide, by decide, by decide⟩

/-- C6 (amended): the persisted identifier is deterministically the
sanitized stem of the filename, and the cache key is the raw filename;
hence re-ingesting the *same* raw filename overwrites a single record
in both the cache and on disk (no duplicates), while two distinct raw
filenames sharing a stem share one disk record but hold separate cache
entries. -/
theorem ingest_same_filename_overwrites (embed : String → List ℚ) (d : Nat)
    (s : ServiceState) (t1 t2 : List Char) (fileName : String)
    (md1 md2 : List (String × MetaVal)) :
    (∃ crest,
      (create_vector_store_from_text embed d
          (create_vector_store_from_text embed d s t1 fileName md1).2
          t2 fileName md2).2.vector_stores
        = (fileName,
            (create_vector_store_from_text embed d
              (create_vector_store_from_text embed d s t1 fileName md1).2
              t2 fileName md2).1) :: crest ∧
      lookupA fileName crest = none) ∧
    (∃ drest,
      (create_vector_store_from_text embed d
          (create_vector_store_from_text embed d s t1 fileName md1).2
          t2 fileName md2).2.disk
        = (pathStem fileName,
            DiskEntry.good ((create_vector_store_from_text embed d
              (create_vector_store_from_text embed d s t1 fileName md1).2
              t2 fileName md2).1)) :: drest ∧
      lookupA (pathStem fileName) drest = none) :=
  ⟨⟨_, rfl, lookupA_eraseA_self _ _⟩, ⟨_, rfl, lookupA_eraseA_self _ _⟩⟩

/-- C7: idempotent deletion.  After `delete_vector_store`, loading the
same id yields the not-found outcome (`none`), and deleting again
returns `false` because nothing remains to delete. -/
theorem delete_then_load_none_then_delete_false (s : ServiceState) (fileName : String) :
    (load_vector_store (delete_vector_store s fileName).2 fileName).1 = none ∧
    (delete_vector_store
        (load_vector_store (delete_vector_store s fileName).2 fileName).2 fileName).1
      = false := by
  have hcache : lookupA fileName (delete_vector_store s fileName).2.vector_stores = none := by
    rcases hd : lookupA (pathStem fileName) s.disk with _ | e <;>
      simp [delete_vector_store, hd, lookupA_eraseA_self]
  have hdisk : lookupA (pathStem fileName) (delete_vector_store s fileName).2.disk = none := by
    rcases hd : lookupA (pathStem fileName) s.disk with _ | e <;>
      simp [delete_vector_store, hd, lookupA_eraseA_self]
  have hload : load_vector_store (delete_vector_store s fileName).2 fileName
      = (none, (delete_vector_store s fileName).2) := by
    simp [load_vector_store, hcache, hdisk]
  refine ⟨by rw [hload], ?_⟩
  rw [hload]
  generalize hs1 : (delete_vector_store s fileName).2 = s1 at hdisk ⊢
  simp [delete_vector_store, hdisk]

set_option maxRecDepth 40000 in
set_option maxHeartbeats 1000000 in
/-- C9 (counterexample): the claim that the stored chunk ordinals
always start at 0 and are strictly increasing is false on the code: the
metadata merge `doc_metadata.update(metadata)` (lines 90-96) lets a
caller-supplied "chunk_index" entry override the generated ordinal.
Ingesting a two-chunk document with metadata binding "chunk_index" to 7
stores the constant 7 as the ordinal of both chunks. -/
theorem caller_metadata_shadows_chunk_ordinals :
    (create_vector_store_from_text embedLen 1 { vector_stores := [], disk := [] }
        shadowText "doc1" [("chunk_index", MetaVal.num 7)]).1.docs.length = 2 ∧
    ((create_vector_store_from_text embedLen 1 { vector_stores := [], disk := [] }
        shadowText "doc1" [("chunk_index", MetaVal.num 7)]).1.docs.map
      fun doc => lookupA "chunk_index" doc.metadata)
      = [some (MetaVal.num 7), some (MetaVal.num 7)] :=
  ⟨by decide, by decide⟩

/-- C9 (amended): for every ingested document whose caller metadata
does not itself bind the reserved key "chunk_index", the stored chunk
ordinals are exactly 0, 1, 2, ... in document order (start at 0,
strictly increasing), and the number of vectors in the built index
equals the number of chunks. -/
theorem chunk_ordinals_range_and_index_size (embed : String → List ℚ) (d : Nat)
    (s : ServiceState) (text : List Char) (fileName : String)
    (metadata : List (String × MetaVal))
    (hmeta : lookupA "chunk_index" metadata = none) :
    ((create_vector_store_from_text embed d s text fileName metadata).1.docs.map
        fun doc => lookupA "chunk_index" doc.metadata)
      = (List.range
          (create_vector_store_from_text embed d s text fileName metadata).1.docs.length).map
          (fun i => some (MetaVal.num i)) ∧
    (create_vector_store_from_text embed d s text fileName metadata).1.index.size
      = (create_vector_store_from_text embed d s text fileName metadata).1.docs.length := by
  constructor
  · simp only [create_vector_store_from_text]
    rw [List.map_map, List.length_map, List.enum_length, ← List.enum_map_fst, List.map_map]
    exact map_eq_of_eq _ _
      (fun p => (lookupA_dictUpdate_none "chunk_index" metadata _ hmeta).trans rfl) _
  · simp only [create_vector_store_from_text, VectorIndex.build, VectorIndex.size]
    simp

/-- Witness for the C9 amended theorem at a concrete input. -/
theorem chunk_ordinals_range_and_index_size_witness :
    lookupA "chunk_index"
        ([("display_name", MetaVal.str "doc1.pdf")] : List (String × MetaVal)) = none ∧
    (((create_vector_store_from_text embedLen 1 { vector_stores := [], disk := [] }
        sampleChars "doc1" [("display_name", MetaVal.str "doc1.pdf")]).1.docs.map
        fun doc => lookupA "chunk_index" doc.metadata)
      = (List.range
          (create_vector_store_from_text embedLen 1 { vector_stores := [], disk := [] }
            sampleChars "doc1" [("display_name", MetaVal.str "doc1.pdf")]).1.docs.length).map
          (fun i => some (MetaVal.num i)) ∧
     (create_vector_store_from_text embedLen 1 { vector_stores := [], disk := [] }
        sampleChars "doc1" [("display_name", MetaVal.str "doc1.pdf")]).1.index.size
      = (create_vector_store_from_text embedLen 1 { vector_stores := [], disk := [] }
          sampleChars "doc1" [("display_name", MetaVal.str "doc1.pdf")]).1.docs.length) :=
  ⟨rfl, chunk_ordinals_range_and_index_size embedLen 1 { vector_stores := [], disk := [] }
    sampleChars "doc1" [("display_name", MetaVal.str "doc1.pdf")] rfl⟩

/-- C10: `delete_vector_store` is total and always evicts the cache
entry for the raw filename, even when no on-disk directory exists; it
returns `true` exactly when an on-disk directory existed (and that
directory is removed), so a cached-but-unpersisted store is evicted yet
reported `false`. -/
theorem delete_total_evicts_cache_reports_disk (s : ServiceState) (fileName : String) :
    lookupA fileName (delete_vector_store s fileName).2.vector_stores = none ∧
    ((delete_vector_store s fileName).1 = true
      ↔ (lookupA (pathStem fileName) s.disk).isSome) ∧
    lookupA (pathStem fileName) (delete_vector_store s fileName).2.disk = none := by
  rcases hd : lookupA (pathStem fileName) s.disk with _ | e <;>
    simp [delete_vector_store, hd, lookupA_eraseA_self]

/-- C8: for every text and every valid (chunk_size, overlap) pair,
concatenating the chunks with their leading overlaps removed
reconstructs the text exactly, and every chunk has length at most
chunk_size. -/
theorem chunker_reconstructs_and_bounds (chunkSize overlap : Nat)
    (hov : overlap < chunkSize) (text : List Char) :
    reassemble overlap (splitChunks chunkSize overlap text) = text ∧
    ∀ c ∈ splitChunks chunkSize overlap text, c.length ≤ chunkSize :=
  ⟨reassemble_splitChunks _ _ hov text, splitChunks_length_le _ _ hov text⟩

/-- Witness for the C8 theorem at a concrete input. -/
theorem chunker_reconstructs_and_bounds_witness :
    2 < 5 ∧
    (reassemble 2 (splitChunks 5 2 sampleChars) = sampleChars ∧
     ∀ c ∈ splitChunks 5 2 sampleChars, c.length ≤ 5) :=
  ⟨by decide, chunker_reconstructs_and_bounds 5 2 (by decide) sampleChars⟩

end VectorDB
